import Mathlib

/-!
Verification of the DICOM data-element decoder in `dcmdump/dcmdump.go`.

The Go code is shallowly embedded: byte buffers are `List Nat` (each entry a
byte value; every byte-level operation reduces entries mod 256, so arbitrary
`Nat` entries behave like their low byte), Go's panicking slice expression
`bytes[a:b]` becomes the `Option`-valued `slice`, and a Go runtime panic
(out-of-bounds slice or index) is modelled as the whole decode returning
`none`.  The three dictionary packages (`tag`, `ts`, `vr`) are not part of
`src`; they are injected as lookup-function parameters, exactly the oracle
shape the decoder consumes (`map[string]...` lookups).
-/

namespace DcmDump

/-- Go slice expression `bs[a:b]` (with `cap = len`): defined when
`0 ≤ a ≤ b ≤ len(bs)`, otherwise a runtime panic, modelled as `none`. -/
def slice (bs : List Nat) (a b : Nat) : Option (List Nat) :=
  if a ≤ b ∧ b ≤ bs.length then some ((bs.drop a).take (b - a)) else none

/-- `binary.LittleEndian.Uint16` applied to a 2-byte slice. -/
def leU16 : List Nat → Nat
  | [a, b] => a % 256 + 256 * (b % 256)
  | _ => 0

/-- `binary.LittleEndian.Uint32` applied to a 4-byte slice. -/
def leU32 : List Nat → Nat
  | [a, b, c, d] => a % 256 + 256 * (b % 256) + 65536 * (c % 256) + 16777216 * (d % 256)
  | _ => 0

/-- One upper-case hex digit (`%x` + `strings.ToUpper`). -/
def hexDigit (n : Nat) : Char :=
  if n < 10 then Char.ofNat (48 + n) else Char.ofNat (55 + n)

/-- `%02x` of one byte, upper-cased. -/
def hexByte (b : Nat) : String :=
  String.mk [hexDigit (b % 256 / 16), hexDigit (b % 256 % 16)]

/-- Go `tagString`: renders a 4-byte raw tag `[b0 b1 b2 b3]` as the canonical
8-hex-digit key `hex(b1) hex(b0) hex(b3) hex(b2)`, upper-cased.  It is only
ever applied to 4-byte slices; the catch-all arm is unreachable. -/
def tagString : List Nat → String
  | [b0, b1, b2, b3] => hexByte b1 ++ hexByte b0 ++ hexByte b3 ++ hexByte b2
  | _ => ""

/-- Go `string(bs)` on a byte slice: each byte becomes one character. -/
def byteString (bs : List Nat) : String :=
  String.mk (bs.map fun b => Char.ofNat (b % 256))

/-- One entry of the VR dictionary (`vr.VR`): the `"fixed"`, `"len"` and
`"padded"` attributes consulted by the decoder and the formatter. -/
structure VRInfo where
  fixed : Bool
  width : Nat
  padded : Bool
deriving DecidableEq, Repr

/-- The Go `DataElement` struct, field for field.  `VRLen` and `PartOfSQ`
are never assigned by `parseDataElement` and keep their zero values. -/
structure DataElement where
  N : Nat
  TagGroup : List Nat
  TagElem : List Nat
  TagStr : String
  Name : String
  VR : List Nat
  VRStr : String
  VRLen : Nat
  Len : Nat
  Data : List Nat
  PartOfSQ : Bool
deriving DecidableEq, Repr

/-- Outcome of the undefined-length delimiter scan (the inner `for` loop of
`parseDataElement`): `oob` models the Go panic of `bytes[m:m+4]` running past
the buffer, `bail` the `return elements` branch taken when `m >= l` after an
increment, `found d` a delimiter tag match at offset `d`. -/
inductive ScanOut where
  | oob : ScanOut
  | bail : ScanOut
  | found : Nat → ScanOut
deriving DecidableEq, Repr

/-- The delimiter scan of `parseDataElement` (lines 312-336): starting at
`m`, read the 4-byte window `bytes[m:m+4]`; accept `FFFEE00D` only when the
current element's tag is `FFFEE000`, accept `FFFEE0DD` always; otherwise
advance one byte, returning `bail` when `m >= len(bytes)`.  The scan never
consults the caller's `limit`.  `fuel` only bounds the recursion; callers
pass `bytes.length + 1`, which the scan can never exhaust. -/
def findDelimAux (bytes : List Nat) (curTag : String) : Nat → Nat → ScanOut
  | 0, _ => .oob
  | fuel + 1, m =>
    match slice bytes m (m + 4) with
    | none => .oob
    | some w =>
      let s := tagString w
      if curTag = "FFFEE000" ∧ s = "FFFEE00D" then .found m
      else if s = "FFFEE0DD" then .found m
      else if m + 1 ≥ bytes.length then .bail
      else findDelimAux bytes curTag fuel (m + 1)

/-- The hard-coded long-form VR set of `parseDataElement` (lines 276-285). -/
def isLongVR (vr : String) : Bool :=
  vr == "OB" || vr == "OD" || vr == "OF" || vr == "OL" || vr == "OW" ||
  vr == "SQ" || vr == "UC" || vr == "UR" || vr == "UT" || vr == "UN"

/-- Outcome of the VR/length resolution stage: `oob` a Go panic, `bail` the
`return elements` taken on an unresolvable VR code, `ok vrB vrS len pos` the
raw VR bytes, resolved VR string, value length, and value start offset. -/
inductive ReadLenOut where
  | oob : ReadLenOut
  | bail : ReadLenOut
  | ok : List Nat → String → Nat → Nat → ReadLenOut
deriving DecidableEq, Repr

/-- Length read shared by both explicit sub-cases (lines 276-302): a VR in
the long-form set skips 2 reserved bytes and reads a 4-byte little-endian
length; any other VR reads a 2-byte little-endian length. -/
def readLenForm (bytes : List Nat) (vrB : List Nat) (vrS : String) (n : Nat) : ReadLenOut :=
  if isLongVR vrS then
    match slice bytes (n + 6) (n + 8) with
    | none => .oob
    | some _ =>
      match slice bytes (n + 8) (n + 12) with
      | none => .oob
      | some lb => .ok vrB vrS (leU32 lb) (n + 12)
  else
    match slice bytes (n + 6) (n + 8) with
    | none => .oob
    | some lb => .ok vrB vrS (leU16 lb) (n + 8)

/-- The VR/length resolution of `parseDataElement` (lines 255-309), for an
element whose tag starts at `n`.  Explicit mode reads 2 VR bytes at `n+4`;
a code absent from the VR dictionary is tolerated as the blank VR `"00"`
when both bytes are zero and otherwise aborts the recursion level (after
Go slices `bytes[n+4:limit]` for a debug dump, which can itself panic).
Implicit mode reads a 4-byte little-endian length at `n+4`. -/
def readLen (vrD : String → Option VRInfo) (bytes : List Nat)
    (explicit : Bool) (limit n : Nat) : ReadLenOut :=
  if explicit then
    match slice bytes (n + 4) (n + 6) with
    | none => .oob
    | some vrB =>
      match vrD (byteString vrB) with
      | some _ => readLenForm bytes vrB (byteString vrB) n
      | none =>
        if vrB.map (fun b => b % 256) = [0, 0] then
          readLenForm bytes vrB "00" n
        else
          match slice bytes (n + 4) limit with
          | none => .oob
          | some _ => .bail
  else
    match slice bytes (n + 4) (n + 8) with
    | none => .oob
    | some lb => .ok [] "" (leU32 lb) (n + 8)

/-- Outcome of one iteration of the decode loop: `oob` a Go panic, `bail`
an early `return elements`, `elem de next child` a completed element, the
next loop position, and — for the two container shapes — the byte span and
mode of the recursive call (`start`, `limit`, `explicitMode`). -/
inductive StepOut where
  | oob : StepOut
  | bail : StepOut
  | elem : DataElement → Nat → Option (Nat × Nat × Bool) → StepOut
deriving DecidableEq, Repr

/-- Tail of one loop iteration (lines 338-364): slice the value range
`bytes[pos : pos+len2]` (Go does this unconditionally for a debug dump, so
an oversized length panics), then branch: item tag `FFFEE000` → container
recursed in explicit mode; VR `SQ` → container recursed in implicit mode;
otherwise a leaf storing the value bytes.  After an undefined length the
cursor additionally skips the 8 delimiter bytes. -/
def stepFinish (bytes t : List Nat) (n : Nat) (tagS nm : String) (vrB : List Nat)
    (vrS : String) (pos len2 : Nat) (undef : Bool) : StepOut :=
  match slice bytes pos (pos + len2) with
  | none => .oob
  | some data =>
    let next := if undef then pos + len2 + 8 else pos + len2
    if tagS = "FFFEE000" then
      .elem { N := n, TagGroup := t.take 2, TagElem := t.drop 2, TagStr := tagS, Name := nm,
              VR := vrB, VRStr := vrS, VRLen := 0, Len := len2, Data := [], PartOfSQ := false }
        next (some (pos, pos + len2, true))
    else if vrS = "SQ" then
      .elem { N := n, TagGroup := t.take 2, TagElem := t.drop 2, TagStr := tagS, Name := nm,
              VR := vrB, VRStr := vrS, VRLen := 0, Len := len2, Data := [], PartOfSQ := false }
        next (some (pos, pos + len2, false))
    else
      .elem { N := n, TagGroup := t.take 2, TagElem := t.drop 2, TagStr := tagS, Name := nm,
              VR := vrB, VRStr := vrS, VRLen := 0, Len := len2, Data := data, PartOfSQ := false }
        next none

/-- One full iteration of the decode loop of `parseDataElement`, for the
element whose tag starts at `n`: tag read and key rendering, name lookup,
VR/length resolution, undefined-length delimiter scan (the found distance is
cast to `uint32`, hence the `% 4294967296`), and value/container handling. -/
def step (vrD : String → Option VRInfo) (tagD : String → Option String) (bytes : List Nat)
    (explicit : Bool) (limit n : Nat) : StepOut :=
  match slice bytes n (n + 4) with
  | none => .oob
  | some t =>
    let tagS := tagString t
    let nm := (tagD tagS).getD ""
    match readLen vrD bytes explicit limit n with
    | .oob => .oob
    | .bail => .bail
    | .ok vrB vrS len pos =>
      if len = 4294967295 then
        match findDelimAux bytes tagS (bytes.length + 1) pos with
        | .oob => .oob
        | .bail => .bail
        | .found d => stepFinish bytes t n tagS nm vrB vrS pos ((d - pos) % 4294967296) true
      else stepFinish bytes t n tagS nm vrB vrS pos len false

/-- The decode loop of `parseDataElement`, written compositionally: the
value of a call is the element sequence decoded from position `n` onward at
this recursion level (Go's accumulating `elements` slice corresponds to the
caller's prefix).  The loop runs while `n+4 ≤ len(bytes)` and
`n+4 ≤ limit` (at the top of each Go iteration `m = n`, so the four-way
condition collapses to this).  A container element triggers the recursive
call, whose *result is discarded* — only a panic (`none`) propagates, exactly
as in the Go source, where the recursive call's return value is dropped.
`fuel` only bounds the recursion depth; the wrapper passes
`bytes.length + 5`, which no execution can exhaust because every nested call
strictly increases `n` and recursion stops once `n + 4 > bytes.length`. -/
def parseAux (vrD : String → Option VRInfo) (tagD : String → Option String)
    (bytes : List Nat) : Bool → Nat → Nat → Nat → Option (List DataElement)
  | _, _, 0, _ => none
  | explicit, limit, fuel + 1, n =>
    if n + 4 ≤ bytes.length ∧ n + 4 ≤ limit then
      match step vrD tagD bytes explicit limit n with
      | .oob => none
      | .bail => some []
      | .elem de next child =>
        match child with
        | some (s, e, mo) =>
          match parseAux vrD tagD bytes mo e fuel s with
          | none => none
          | some _ =>
            match parseAux vrD tagD bytes explicit limit fuel next with
            | none => none
            | some rest => some (de :: rest)
        | none =>
          match parseAux vrD tagD bytes explicit limit fuel next with
          | none => none
          | some rest => some (de :: rest)
    else some []

/-- Go `parseDataElement(bytes, n, explicit, limit)`.  `none` models a Go
runtime panic; `some es` the returned element slice. -/
def parseDataElement (vrD : String → Option VRInfo) (tagD : String → Option String)
    (bytes : List Nat) (n : Nat) (explicit : Bool) (limit : Nat) : Option (List DataElement) :=
  parseAux vrD tagD bytes explicit limit (bytes.length + 5) n

/-- Modelled from the spec: the VR Dictionary (`dcmdump/vr`, not under
`src`) maps a 2-character VR code to its fixed-size flag, element width and
padding flag (§6).  A small instance: `UI` is padded text (§8's concrete
scenario), the long-form codes `OB`/`OW`/`SQ`/`UN` of §4.2 appear with the
numeric widths 1 and 2 of §4.3, `US`/`UL` are fixed-size numerics of widths
2 and 4, `AE` is plain text. -/
def vrDictM : String → Option VRInfo := fun s =>
  if s = "UI" then some ⟨false, 0, true⟩
  else if s = "US" then some ⟨true, 2, false⟩
  else if s = "UL" then some ⟨true, 4, false⟩
  else if s = "OB" then some ⟨true, 1, false⟩
  else if s = "OW" then some ⟨true, 2, false⟩
  else if s = "SQ" then some ⟨false, 0, false⟩
  else if s = "UN" then some ⟨false, 0, false⟩
  else if s = "AE" then some ⟨false, 0, false⟩
  else none

/-- Modelled from the spec: the Tag Dictionary (`dcmdump/tag`, not under
`src`) resolves a tag key to an optional human name; a missing entry is
non-fatal and the name is then left empty (§3, §4.2 step 1).  Name
resolution carries no decoding semantics, so the empty dictionary is used. -/
def tagDictM : String → Option String := fun _ => none

/-- Modelled from the spec: the Transfer Syntax Dictionary (`dcmdump/ts`,
not under `src`) maps a transfer-syntax UID string to its human name (§6);
one standard entry suffices here. -/
def tsDictM : String → Option String := fun s =>
  if s = "1.2.840.10008.1.2" then some "Implicit VR Little Endian" else none

/-- Width-1 numeric rendering of `stringData`: every byte as a decimal
token followed by a space. -/
def render1 : List Nat → String
  | [] => ""
  | b :: rest => toString (b % 256) ++ " " ++ render1 rest

/-- Width-2 numeric rendering of `stringData`: consecutive 2-byte
little-endian groups as decimal tokens, the last incomplete group dropped. -/
def render2 : List Nat → String
  | a :: b :: rest => toString (leU16 [a, b]) ++ " " ++ render2 rest
  | _ => ""

/-- Width-4 numeric rendering of `stringData`: consecutive 4-byte
little-endian groups as decimal tokens, the last incomplete group dropped. -/
def render4 : List Nat → String
  | a :: b :: c :: d :: rest => toString (leU32 [a, b, c, d]) ++ " " ++ render4 rest
  | _ => ""

/-- The trailing-null-stripping text rendering used both by the
transfer-syntax branch and by the padded-text branch of `stringData`: if the
final byte is null, exactly that one byte is excluded. -/
def stripPadded (data : List Nat) : String :=
  match data.getLast? with
  | some b => if b % 256 = 0 then byteString (data.take (data.length - 1)) else byteString data
  | none => byteString data

/-- The `switch vrl` of `stringData` (lines 192-215): decimal-token
rendering for widths 1, 2 and 4; any other width falls back to raw text. -/
def numericRender (width : Nat) (data : List Nat) : String :=
  match width with
  | 1 => render1 data
  | 2 => render2 data
  | 4 => render4 data
  | _ => byteString data

/-- The VR-classified part of `stringData` (lines 187-225): fixed-size
numeric VRs render by `numericRender` at the dictionary width, padded VRs
strip one trailing null (reading `Data[len-1]`, a Go panic — `none` — on
empty data), anything else renders the raw bytes as text. -/
def stringDataRest (vrD : String → Option VRInfo) (de : DataElement) : Option String :=
  match vrD de.VRStr with
  | some info =>
    if info.fixed then some (numericRender info.width de.Data)
    else if info.padded then
      match de.Data.getLast? with
      | none => none
      | some _ => some (stripPadded de.Data)
    else some (byteString de.Data)
  | none => some (byteString de.Data)

/-- Go `stringData` (lines 176-226).  The transfer-syntax element
(`00020010`) first reads `Data[len-1]` (a Go panic — `none` — on empty
data), strips a trailing null, and when the resulting string is a known
transfer-syntax UID returns it with the human name appended; every other
case falls through to the VR-classified rendering. -/
def stringData (vrD : String → Option VRInfo) (tsD : String → Option String)
    (de : DataElement) : Option String :=
  if de.TagStr = "00020010" then
    match de.Data.getLast? with
    | none => none
    | some _ =>
      match tsD (stripPadded de.Data) with
      | some nm => some (stripPadded de.Data ++ " " ++ nm)
      | none => stringDataRest vrD de
  else stringDataRest vrD de

/-- Go exported `StringData`, which just calls `stringData`. -/
def StringData (vrD : String → Option VRInfo) (tsD : String → Option String)
    (de : DataElement) : Option String :=
  stringData vrD tsD de

/-- Following the spec's words (§4.3), independent of the source: render a
value by VR classification only — fixed-size numeric of width 1/2/4 as
space-joined decimal tokens stopping at the last complete group, padded
text with a single trailing null excluded, anything else as text verbatim.
Used to compare the code's `stringData` against the spec's description. -/
def renderClassified (vrD : String → Option VRInfo) (vrS : String) (data : List Nat) : String :=
  match vrD vrS with
  | some info =>
    if info.fixed then numericRender info.width data
    else if info.padded then stripPadded data
    else byteString data
  | none => byteString data

/-- Whether the 4-byte window at offset `k` is an acceptable delimiter for
an undefined-length element whose own tag is `curTag`: `FFFEE00D` only when
`curTag = FFFEE000`, `FFFEE0DD` always.  This is the predicate the
delimiter scan of `parseDataElement` tests at each offset. -/
def delimMatch (bytes : List Nat) (curTag : String) (k : Nat) : Bool :=
  match slice bytes k (k + 4) with
  | none => false
  | some w =>
    if curTag = "FFFEE000" ∧ tagString w = "FFFEE00D" then true
    else if tagString w = "FFFEE0DD" then true
    else false

/-- Fixture: an item (`FFFEE000`) of defined length 8 whose span holds one
explicit element `(0008,0018) UI` of length 0. -/
def bufItem : List Nat := [254, 255, 0, 224, 8, 0, 0, 0, 8, 0, 24, 0, 85, 73, 0, 0]

/-- Fixture: an item (`FFFEE000`) of undefined length (`FFFFFFFF`); its
value span `[8, 16)` holds one explicit element, the item delimiter
`FFFEE00D` sits at offset 16, followed by its 4 length bytes. -/
def bufScan : List Nat :=
  [254, 255, 0, 224, 255, 255, 255, 255, 8, 0, 24, 0, 85, 73, 0, 0, 254, 255, 13, 224, 0, 0, 0, 0]

/-- Fixture: an explicit element `(0008,1140)` with VR `SQ` and length 0. -/
def bufSQ : List Nat := [8, 0, 64, 17, 83, 81, 0, 0, 0, 0, 0, 0]

/-- Fixture: an implicit pixel-data element `(7FE0,0010)` of declared
length 4 with value bytes `[1, 2, 3, 4]`. -/
def bufPixel : List Nat := [224, 127, 16, 0, 4, 0, 0, 0, 1, 2, 3, 4]

/-- Fixture: an implicit leaf element `(0008,0005)` of length 2. -/
def bufLeaf : List Nat := [8, 0, 5, 0, 2, 0, 0, 0, 65, 66]

/-- The ASCII bytes of the transfer-syntax UID `1.2.840.10008.1.2`. -/
def uidData : List Nat :=
  [49, 46, 50, 46, 56, 52, 48, 46, 49, 48, 48, 48, 56, 46, 49, 46, 50]

/-- Fixture: a decoded transfer-syntax element (`00020010`, VR `UI`) whose
value is the UID `1.2.840.10008.1.2`. -/
def deTS : DataElement :=
  ⟨0, [2, 0], [16, 0], "00020010", "", [85, 73], "UI", 0, 17, uidData, false⟩

/-- Fixture: a decoded `UI` element with a null-padded value `"1.2\x00"`. -/
def dePadded : DataElement :=
  ⟨0, [8, 0], [24, 0], "00080018", "", [85, 73], "UI", 0, 4, [49, 46, 50, 0], false⟩

/-- Fixture: the element decoded from `bufLeaf`. -/
def deLeaf : DataElement :=
  ⟨0, [8, 0], [5, 0], "00080005", "", [], "", 0, 2, [65, 66], false⟩

/-! ### Helper lemmas -/

theorem slice_bounds {bs w : List Nat} {a b : Nat} (h : slice bs a b = some w) :
    a ≤ b ∧ b ≤ bs.length ∧ w.length = b - a := by
  unfold slice at h
  split at h
  · rename_i hc
    cases h
    refine ⟨hc.1, hc.2, ?_⟩
    simp only [List.length_take, List.length_drop]
    omega
  · exact absurd h (by simp)

theorem slice_of_le {bs : List Nat} {a b : Nat} (h1 : a ≤ b) (h2 : b ≤ bs.length) :
    slice bs a b = some ((bs.drop a).take (b - a)) := by
  unfold slice
  rw [if_pos ⟨h1, h2⟩]

theorem findDelimAux_ne_bail (bytes : List Nat) (curTag : String) :
    ∀ fuel m, findDelimAux bytes curTag fuel m ≠ .bail := by
  intro fuel
  induction fuel with
  | zero => intro m h; simp [findDelimAux] at h
  | succ f ih =>
    intro m h
    simp only [findDelimAux] at h
    cases hs : slice bytes m (m + 4) with
    | none => rw [hs] at h; exact absurd h (by simp)
    | some w =>
      rw [hs] at h
      simp only at h
      split at h
      · exact absurd h (by simp)
      · split at h
        · exact absurd h (by simp)
        · split at h
          · rename_i hge
            have hb := slice_bounds hs
            omega
          · exact ih (m + 1) h

theorem findDelimAux_found_spec (bytes : List Nat) (curTag : String) :
    ∀ fuel m d, findDelimAux bytes curTag fuel m = .found d →
      m ≤ d ∧ delimMatch bytes curTag d = true ∧
        ∀ k, m ≤ k → k < d → delimMatch bytes curTag k = false := by
  intro fuel
  induction fuel with
  | zero => intro m d h; simp [findDelimAux] at h
  | succ f ih =>
    intro m d h
    simp only [findDelimAux] at h
    cases hs : slice bytes m (m + 4) with
    | none => rw [hs] at h; exact absurd h (by simp)
    | some w =>
      rw [hs] at h
      simp only at h
      by_cases h1 : curTag = "FFFEE000" ∧ tagString w = "FFFEE00D"
      · rw [if_pos h1] at h
        have hd : m = d := by cases h; rfl
        subst hd
        refine ⟨le_refl m, ?_, fun k hk1 hk2 => absurd (lt_of_le_of_lt hk1 hk2) (lt_irrefl m)⟩
        simp [delimMatch, hs, h1]
      · rw [if_neg h1] at h
        by_cases h2 : tagString w = "FFFEE0DD"
        · rw [if_pos h2] at h
          have hd : m = d := by cases h; rfl
          subst hd
          refine ⟨le_refl m, ?_, fun k hk1 hk2 => absurd (lt_of_le_of_lt hk1 hk2) (lt_irrefl m)⟩
          simp [delimMatch, hs, h1, h2]
        · rw [if_neg h2] at h
          split at h
          · exact absurd h (by simp)
          · obtain ⟨hle, hmatch, hnone⟩ := ih (m + 1) d h
            refine ⟨by omega, hmatch, ?_⟩
            intro k hk1 hk2
            rcases Nat.eq_or_lt_of_le hk1 with heq | hlt
            · subst heq
              simp [delimMatch, hs, h1, h2]
            · exact hnone k (by omega) hk2

theorem stepFinish_elem_inv {bytes t : List Nat} {n : Nat} {tagS nm : String}
    {vrB : List Nat} {vrS : String} {pos len2 : Nat} {undef : Bool}
    {de : DataElement} {next : Nat} {child : Option (Nat × Nat × Bool)}
    (h : stepFinish bytes t n tagS nm vrB vrS pos len2 undef = .elem de next child) :
    de.TagStr = tagS ∧ de.VRStr = vrS ∧ de.Len = len2 ∧
      next = (if undef then pos + len2 + 8 else pos + len2) ∧
      ((tagS = "FFFEE000" ∧ de.Data = [] ∧ child = some (pos, pos + len2, true)) ∨
       (tagS ≠ "FFFEE000" ∧ vrS = "SQ" ∧ de.Data = [] ∧ child = some (pos, pos + len2, false)) ∨
       (tagS ≠ "FFFEE000" ∧ vrS ≠ "SQ" ∧ child = none ∧ de.Data.length = len2)) := by
  unfold stepFinish at h
  cases hs : slice bytes pos (pos + len2) with
  | none => rw [hs] at h; exact absurd h (by simp)
  | some data =>
    rw [hs] at h
    simp only at h
    have hdl : data.length = len2 := by
      have := slice_bounds hs
      omega
    by_cases h1 : tagS = "FFFEE000"
    · rw [if_pos h1] at h
      cases h
      exact ⟨rfl, rfl, rfl, rfl, Or.inl ⟨h1, rfl, rfl⟩⟩
    · rw [if_neg h1] at h
      by_cases h2 : vrS = "SQ"
      · rw [if_pos h2] at h
        cases h
        exact ⟨rfl, rfl, rfl, rfl, Or.inr (Or.inl ⟨h1, h2, rfl, rfl⟩)⟩
      · rw [if_neg h2] at h
        cases h
        exact ⟨rfl, rfl, rfl, rfl, Or.inr (Or.inr ⟨h1, h2, rfl, hdl⟩)⟩

theorem step_elem_inv {vrD : String → Option VRInfo} {tagD : String → Option String}
    {bytes : List Nat} {explicit : Bool} {limit n : Nat}
    {de : DataElement} {next : Nat} {child : Option (Nat × Nat × Bool)}
    (h : step vrD tagD bytes explicit limit n = .elem de next child) :
    (de.TagStr = "FFFEE000" ∧ de.Data = [] ∧ ∃ s e, child = some (s, e, true)) ∨
    (de.TagStr ≠ "FFFEE000" ∧ de.VRStr = "SQ" ∧ de.Data = [] ∧ ∃ s e, child = some (s, e, false)) ∨
    (de.TagStr ≠ "FFFEE000" ∧ de.VRStr ≠ "SQ" ∧ child = none ∧ de.Data.length = de.Len) := by
  unfold step at h
  cases ht : slice bytes n (n + 4) with
  | none => rw [ht] at h; exact absurd h (by simp)
  | some t =>
    rw [ht] at h
    simp only at h
    cases hr : readLen vrD bytes explicit limit n with
    | oob => rw [hr] at h; exact absurd h (by simp)
    | bail => rw [hr] at h; exact absurd h (by simp)
    | ok vrB vrS len pos =>
      rw [hr] at h
      simp only at h
      have hfin : ∀ len2 undef,
          stepFinish bytes t n (tagString t) ((tagD (tagString t)).getD "") vrB vrS pos len2 undef =
            .elem de next child →
          (de.TagStr = "FFFEE000" ∧ de.Data = [] ∧ ∃ s e, child = some (s, e, true)) ∨
          (de.TagStr ≠ "FFFEE000" ∧ de.VRStr = "SQ" ∧ de.Data = [] ∧
            ∃ s e, child = some (s, e, false)) ∨
          (de.TagStr ≠ "FFFEE000" ∧ de.VRStr ≠ "SQ" ∧ child = none ∧
            de.Data.length = de.Len) := by
        intro len2 undef hf
        obtain ⟨e1, e2, e3, _, hcase⟩ := stepFinish_elem_inv hf
        rcases hcase with ⟨ha, hb, hc⟩ | ⟨ha, hb, hc, hd⟩ | ⟨ha, hb, hc, hd⟩
        · exact Or.inl ⟨e1.trans ha, hb, _, _, hc⟩
        · exact Or.inr (Or.inl ⟨fun hh => ha (e1.symm.trans hh), e2.trans hb, hc, _, _, hd⟩)
        · refine Or.inr (Or.inr ⟨fun hh => ha (e1.symm.trans hh),
            fun hh => hb (e2.symm.trans hh), hc, ?_⟩)
          rw [e3]
          exact hd
      by_cases hlen : len = 4294967295
      · rw [if_pos hlen] at h
        cases hf : findDelimAux bytes (tagString t) (bytes.length + 1) pos with
        | oob => rw [hf] at h; exact absurd h (by simp)
        | bail => rw [hf] at h; exact absurd h (by simp)
        | found d => rw [hf] at h; exact hfin _ _ h
      · rw [if_neg hlen] at h
        exact hfin _ _ h

theorem parseAux_mem_len (vrD : String → Option VRInfo) (tagD : String → Option String)
    (bytes : List Nat) :
    ∀ fuel explicit limit n es, parseAux vrD tagD bytes explicit limit fuel n = some es →
      ∀ de ∈ es, de.TagStr ≠ "FFFEE000" → de.VRStr ≠ "SQ" → de.Data.length = de.Len := by
  intro fuel
  induction fuel with
  | zero => intro explicit limit n es h; simp [parseAux] at h
  | succ f ih =>
    intro explicit limit n es h de hmem hne1 hne2
    simp only [parseAux] at h
    split at h
    · cases hstep : step vrD tagD bytes explicit limit n with
      | oob => rw [hstep] at h; exact absurd h (by simp)
      | bail =>
        rw [hstep] at h
        simp only [Option.some.injEq] at h
        subst h
        simp at hmem
      | elem de' next child =>
        rw [hstep] at h
        cases child with
        | some sp =>
          obtain ⟨s, e, mo⟩ := sp
          simp only at h
          cases hc1 : parseAux vrD tagD bytes mo e f s with
          | none => rw [hc1] at h; exact absurd h (by simp)
          | some xs =>
            rw [hc1] at h
            cases hc2 : parseAux vrD tagD bytes explicit limit f next with
            | none => rw [hc2] at h; exact absurd h (by simp)
            | some rest =>
              rw [hc2] at h
              simp only [Option.some.injEq] at h
              subst h
              rcases List.mem_cons.mp hmem with rfl | hmem'
              · rcases step_elem_inv hstep with ⟨ha, _⟩ | ⟨_, hb, _⟩ | ⟨_, _, hc, _⟩
                · exact absurd ha hne1
                · exact absurd hb hne2
                · exact absurd hc (by simp)
              · exact ih explicit limit next rest hc2 de hmem' hne1 hne2
        | none =>
          simp only at h
          cases hc2 : parseAux vrD tagD bytes explicit limit f next with
          | none => rw [hc2] at h; exact absurd h (by simp)
          | some rest =>
            rw [hc2] at h
            simp only [Option.some.injEq] at h
            subst h
            rcases List.mem_cons.mp hmem with rfl | hmem'
            · rcases step_elem_inv hstep with ⟨ha, _⟩ | ⟨_, hb, _⟩ | ⟨_, _, _, hd⟩
              · exact absurd ha hne1
              · exact absurd hb hne2
              · exact hd
            · exact ih explicit limit next rest hc2 de hmem' hne1 hne2
    · simp only [Option.some.injEq] at h
      subst h
      simp at hmem

theorem isLongVR_00 : isLongVR "00" = false := by decide

theorem step_sentinel (vrD : String → Option VRInfo) (tagD : String → Option String)
    (bytes t : List Nat) (explicit : Bool) (limit n : Nat) (vrB : List Nat) (vrS : String)
    (pos d : Nat) (ht : slice bytes n (n + 4) = some t)
    (hr : readLen vrD bytes explicit limit n = .ok vrB vrS 4294967295 pos)
    (hf : findDelimAux bytes (tagString t) (bytes.length + 1) pos = .found d) :
    step vrD tagD bytes explicit limit n =
      stepFinish bytes t n (tagString t) ((tagD (tagString t)).getD "") vrB vrS pos
        ((d - pos) % 4294967296) true := by
  simp only [step, ht, hr, hf, eq_self_iff_true, if_true]

theorem step_plain (vrD : String → Option VRInfo) (tagD : String → Option String)
    (bytes t : List Nat) (explicit : Bool) (limit n : Nat) (vrB : List Nat) (vrS : String)
    (len pos : Nat) (ht : slice bytes n (n + 4) = some t)
    (hr : readLen vrD bytes explicit limit n = .ok vrB vrS len pos)
    (hlen : len ≠ 4294967295) :
    step vrD tagD bytes explicit limit n =
      stepFinish bytes t n (tagString t) ((tagD (tagString t)).getD "") vrB vrS pos len false := by
  simp only [step, ht, hr]
  rw [if_neg hlen]

theorem getLast?_some_of_ne_nil {l : List Nat} (h : l ≠ []) : ∃ b, l.getLast? = some b :=
  Option.isSome_iff_exists.mp (List.getLast?_isSome.mpr h)

theorem stringDataRest_some (vrD : String → Option VRInfo) (de : DataElement)
    (h : de.Data ≠ []) :
    stringDataRest vrD de = some (renderClassified vrD de.VRStr de.Data) := by
  obtain ⟨b, hb⟩ := getLast?_some_of_ne_nil h
  unfold stringDataRest renderClassified
  cases hv : vrD de.VRStr with
  | none => rfl
  | some info =>
    by_cases hf : info.fixed = true
    · simp only [hf, eq_self_iff_true, if_true]
    · have hf' : info.fixed = false := by simpa using hf
      simp only [hf', Bool.false_eq_true, if_false]
      by_cases hp : info.padded = true
      · simp only [hp, eq_self_iff_true, if_true, hb]
      · have hp' : info.padded = false := by simpa using hp
        simp only [hp', Bool.false_eq_true, if_false]

/-! ### Claim theorems -/

/-- C1.  The claim (bounds safety under truncation) fails on the code: on
the 5-byte explicit buffer `[08 00 05 00 41]` — the 12-byte element
`(0008,0005) CS` truncated after its first VR byte — the loop guard admits
the iteration (`n+4 ≤ 5`), and the VR read then slices `bytes[4:6]` past
the buffer end, a Go runtime panic (modelled as `none`) instead of the
required clean partial decode. -/
theorem C1_truncated_decode_oob :
    parseDataElement vrDictM tagDictM [8, 0, 5, 0, 65] 0 true 5 = none := by decide

/-- C2 counterexample.  Decoding `bufScan` with caller limit 12: the
undefined-length scan, which tests `m ≥ len(bytes)` only and never the
limit, runs past offset 12 and accepts the item delimiter at offset 16,
so the decode returns one element with `Len = 16 - 8 = 8` — not, as the
claim states for a scan that reaches the limit boundary without a match,
the partial (here empty) element sequence. -/
theorem C2_scan_past_limit :
    parseDataElement vrDictM tagDictM bufScan 0 false 12 =
      some [⟨0, [254, 255], [0, 224], "FFFEE000", "", [], "", 0, 8, [], false⟩] ∧
    findDelimAux bufScan "FFFEE000" 25 8 = .found 16 ∧ 12 < 16 := by decide

/-- C3 counterexample.  Decoding `bufItem` (an item of length 8 holding one
`(0008,0018) UI` element): the recursive call over the item's span does
decode that child — shown by invoking the decoder on the same span — but
the caller's result is only the container element; the child's result
sequence is discarded, not appended, contradicting the claim. -/
theorem C3_children_not_appended :
    parseDataElement vrDictM tagDictM bufItem 0 false 16 =
      some [⟨0, [254, 255], [0, 224], "FFFEE000", "", [], "", 0, 8, [], false⟩] ∧
    parseDataElement vrDictM tagDictM bufItem 8 true 16 =
      some [⟨8, [8, 0], [24, 0], "00080018", "", [85, 73], "UI", 0, 0, [], false⟩] := by decide

/-- C4.  Evaluating the decoder at the failing input: the pixel-data
element `(7FE0,0010)` of declared length 4.  Contrary to the claim (and to
the `parseDataElement` variants embedded in the repository's README, which
blank the value for tag `7FE00010`), the shipped `parseDataElement` has no
special case for that tag and stores the raw value bytes `[1, 2, 3, 4]` in
the element; the cursor does advance past the declared length. -/
theorem C4_pixel_value_present :
    parseDataElement vrDictM tagDictM bufPixel 0 false 12 =
      some [⟨0, [224, 127], [16, 0], "7FE00010", "", [], "", 0, 4, [1, 2, 3, 4], false⟩] := by
  decide

/-- C2 (amended).  Undefined-length resolution: (i) a successful delimiter
scan yields the *first* offset `d ≥ m` whose 4-byte window matches the
applicable delimiter (`FFFEE00D` only for a current tag of `FFFEE000`,
`FFFEE0DD` always); (ii) the scan never takes the partial-return branch —
its end-of-buffer test `m ≥ len(bytes)` is dead, because the 4-byte window
read runs past the buffer (a panic, `oob`) first, and the caller-supplied
`limit` is never consulted; (iii) for an element whose length field is the
sentinel `FFFFFFFF` and whose scan finds a delimiter at offset `d`, the
decoded element's `Len` is the distance from the value start `pos` to `d`,
and the loop cursor continues exactly 8 bytes past the delimiter's start. -/
theorem C2_undefined_length (vrD : String → Option VRInfo) (tagD : String → Option String)
    (bytes : List Nat) (explicit : Bool) (limit n : Nat) :
    (∀ curTag fuel m d, findDelimAux bytes curTag fuel m = .found d →
      m ≤ d ∧ delimMatch bytes curTag d = true ∧
        ∀ k, m ≤ k → k < d → delimMatch bytes curTag k = false) ∧
    (∀ curTag fuel m, findDelimAux bytes curTag fuel m ≠ .bail) ∧
    (∀ t vrB vrS pos d,
      slice bytes n (n + 4) = some t →
      readLen vrD bytes explicit limit n = .ok vrB vrS 4294967295 pos →
      findDelimAux bytes (tagString t) (bytes.length + 1) pos = .found d →
      d - pos < 4294967296 →
      ∃ de child, step vrD tagD bytes explicit limit n = .elem de (d + 8) child ∧
        de.Len = d - pos) := by
  refine ⟨fun curTag fuel m d h => findDelimAux_found_spec bytes curTag fuel m d h,
    fun curTag fuel m => findDelimAux_ne_bail bytes curTag fuel m, ?_⟩
  intro t vrB vrS pos d ht hr hf hlt
  obtain ⟨hpd, hmatch, -⟩ := findDelimAux_found_spec bytes (tagString t) _ pos d hf
  have hd4 : d + 4 ≤ bytes.length := by
    unfold delimMatch at hmatch
    cases hw : slice bytes d (d + 4) with
    | none => rw [hw] at hmatch; simp at hmatch
    | some w => exact (slice_bounds hw).2.1
  have hmod : (d - pos) % 4294967296 = d - pos := Nat.mod_eq_of_lt hlt
  have hstep := step_sentinel vrD tagD bytes t explicit limit n vrB vrS pos d ht hr hf
  rw [hmod] at hstep
  have hpe : pos + (d - pos) = d := by omega
  unfold stepFinish at hstep
  rw [hpe] at hstep
  rw [slice_of_le hpd (by omega)] at hstep
  simp only [if_true] at hstep
  by_cases h1 : tagString t = "FFFEE000"
  · rw [if_pos h1] at hstep
    exact ⟨_, _, hstep, rfl⟩
  · rw [if_neg h1] at hstep
    by_cases h2 : vrS = "SQ"
    · rw [if_pos h2] at hstep
      exact ⟨_, _, hstep, rfl⟩
    · rw [if_neg h2] at hstep
      exact ⟨_, _, hstep, rfl⟩

/-- C3 (amended).  Each loop iteration that completes a container element
appends exactly that element to the level's result: the recursive call over
the container's span is executed, but its returned element sequence is
discarded (the wildcard below) — only a panic (`none`) propagates to the
caller.  The children decoded by the recursion therefore do not appear in
the caller's result sequence. -/
theorem C3_recursion_discard (vrD : String → Option VRInfo) (tagD : String → Option String)
    (bytes : List Nat) (explicit : Bool) (limit fuel n : Nat) (de : DataElement)
    (next s e : Nat) (mo : Bool) (h1 : n + 4 ≤ bytes.length) (h2 : n + 4 ≤ limit)
    (h : step vrD tagD bytes explicit limit n = .elem de next (some (s, e, mo))) :
    parseAux vrD tagD bytes explicit limit (fuel + 1) n =
      match parseAux vrD tagD bytes mo e fuel s with
      | none => none
      | some _ =>
        match parseAux vrD tagD bytes explicit limit fuel next with
        | none => none
        | some rest => some (de :: rest) := by
  simp only [parseAux]
  rw [if_pos ⟨h1, h2⟩, h]

/-- Supporting lemma for C4, characterizing the shipped code's actual
behavior in general: the code has no special case for the bulk pixel-data
tag `7FE00010` — such an element is decoded as an ordinary leaf, its raw
value bytes stored in `Data`, and the cursor advances exactly past the
declared length (`pos + len`). -/
theorem C4_pixel_data (vrD : String → Option VRInfo) (tagD : String → Option String)
    (bytes t : List Nat) (explicit : Bool) (limit n : Nat) (vrB : List Nat) (vrS : String)
    (len pos : Nat) (data : List Nat)
    (ht : slice bytes n (n + 4) = some t) (htag : tagString t = "7FE00010")
    (hr : readLen vrD bytes explicit limit n = .ok vrB vrS len pos)
    (hlen : len ≠ 4294967295) (hvr : vrS ≠ "SQ")
    (hd : slice bytes pos (pos + len) = some data) :
    step vrD tagD bytes explicit limit n =
      .elem ⟨n, t.take 2, t.drop 2, "7FE00010", (tagD "7FE00010").getD "", vrB, vrS, 0, len,
        data, false⟩ (pos + len) none := by
  have hstep := step_plain vrD tagD bytes t explicit limit n vrB vrS len pos ht hr hlen
  rw [htag] at hstep
  unfold stepFinish at hstep
  rw [hd] at hstep
  simp only [Bool.false_eq_true, if_false] at hstep
  rw [if_neg (by decide : ("7FE00010" : String) ≠ "FFFEE000"), if_neg hvr] at hstep
  exact hstep

/-- C5.  The length field is resolved as a function of mode and VR: in
explicit mode, a resolved VR in the long-form set skips 2 reserved bytes
and reads a 4-byte little-endian length at `n+8` (value starts at `n+12`),
any other VR reads a 2-byte little-endian length at `n+6` (value starts at
`n+8`); in implicit mode no VR bytes are consumed and a 4-byte
little-endian length is always read at `n+4` (value starts at `n+8`). -/
theorem C5_length_resolution (vrD : String → Option VRInfo) (bytes : List Nat) (limit n : Nat) :
    (∀ vrB lb, slice bytes (n + 4) (n + 6) = some vrB → (vrD (byteString vrB)).isSome →
      isLongVR (byteString vrB) = true → slice bytes (n + 8) (n + 12) = some lb →
      readLen vrD bytes true limit n = .ok vrB (byteString vrB) (leU32 lb) (n + 12)) ∧
    (∀ vrB lb, slice bytes (n + 4) (n + 6) = some vrB → (vrD (byteString vrB)).isSome →
      isLongVR (byteString vrB) = false → slice bytes (n + 6) (n + 8) = some lb →
      readLen vrD bytes true limit n = .ok vrB (byteString vrB) (leU16 lb) (n + 8)) ∧
    (∀ lb, slice bytes (n + 4) (n + 8) = some lb →
      readLen vrD bytes false limit n = .ok [] "" (leU32 lb) (n + 8)) := by
  refine ⟨?_, ?_, ?_⟩
  · intro vrB lb hvrB hdict hlong hlb
    obtain ⟨info, hinfo⟩ := Option.isSome_iff_exists.mp hdict
    have hb := slice_bounds hlb
    have hres : slice bytes (n + 6) (n + 8) =
        some ((bytes.drop (n + 6)).take (n + 8 - (n + 6))) :=
      slice_of_le (by omega) (by omega)
    simp only [readLen, readLenForm, hvrB, hinfo, hlong, hres, hlb, eq_self_iff_true, if_true]
  · intro vrB lb hvrB hdict hlong hlb
    obtain ⟨info, hinfo⟩ := Option.isSome_iff_exists.mp hdict
    simp only [readLen, readLenForm, hvrB, hinfo, hlong, hlb, eq_self_iff_true, if_true,
      Bool.false_eq_true, if_false]
  · intro lb hlb
    simp only [readLen, hlb, Bool.false_eq_true, if_false]

/-- C6.  Explicit-mode handling of a VR code absent from the VR dictionary:
an all-zero code is tolerated as the sentinel blank VR `"00"` and decoding
continues (with a short-form 2-byte length, since `"00"` is not long-form);
any other unknown code makes the iteration bail out, and the recursion
level returns the element sequence decoded so far (here, compositionally,
`some []` for the remainder — a partial result, not a panic). -/
theorem C6_unresolved_vr (vrD : String → Option VRInfo) (tagD : String → Option String)
    (bytes : List Nat) (limit n : Nat) :
    (∀ vrB lb, slice bytes (n + 4) (n + 6) = some vrB → vrD (byteString vrB) = none →
      vrB.map (fun b => b % 256) = [0, 0] → slice bytes (n + 6) (n + 8) = some lb →
      readLen vrD bytes true limit n = .ok vrB "00" (leU16 lb) (n + 8)) ∧
    (∀ vrB, slice bytes (n + 4) (n + 6) = some vrB → vrD (byteString vrB) = none →
      vrB.map (fun b => b % 256) ≠ [0, 0] → n + 4 ≤ limit → limit ≤ bytes.length →
      step vrD tagD bytes true limit n = .bail ∧
      parseDataElement vrD tagD bytes n true limit = some []) := by
  constructor
  · intro vrB lb hvrB hnone hzero hlb
    simp only [readLen, readLenForm, hvrB, hnone, hzero, isLongVR_00, hlb,
      eq_self_iff_true, if_true, Bool.false_eq_true, if_false]
  · intro vrB hvrB hnone hzero h4 h5
    have hl : n + 4 ≤ bytes.length := le_trans h4 h5
    have ht : slice bytes n (n + 4) = some ((bytes.drop n).take (n + 4 - n)) :=
      slice_of_le (by omega) hl
    have hlim : slice bytes (n + 4) limit =
        some ((bytes.drop (n + 4)).take (limit - (n + 4))) := slice_of_le h4 h5
    have hrl : readLen vrD bytes true limit n = .bail := by
      simp only [readLen, hvrB, hnone, hlim, eq_self_iff_true, if_true]
      rw [if_neg hzero]
    have hstep : step vrD tagD bytes true limit n = .bail := by
      simp only [step, ht, hrl]
    refine ⟨hstep, ?_⟩
    rw [show parseDataElement vrD tagD bytes n true limit =
        parseAux vrD tagD bytes true limit (bytes.length + 4 + 1) n from rfl]
    simp only [parseAux]
    rw [if_pos ⟨hl, h4⟩, hstep]

/-- C7.  Container recursion modes are fixed by the container's shape,
independently of the outer mode: an item element (tag `FFFEE000`) recurses
over its span with mode Explicit (`true`), an element with VR `SQ` (and a
non-item tag) recurses with mode Implicit (`false`), and conversely every
spawned recursion is one of these two, with exactly that mode. -/
theorem C7_container_modes {vrD : String → Option VRInfo} {tagD : String → Option String}
    {bytes : List Nat} {explicit : Bool} {limit n : Nat} {de : DataElement} {next : Nat}
    {child : Option (Nat × Nat × Bool)}
    (h : step vrD tagD bytes explicit limit n = .elem de next child) :
    (de.TagStr = "FFFEE000" → ∃ s e, child = some (s, e, true)) ∧
    (de.TagStr ≠ "FFFEE000" → de.VRStr = "SQ" → ∃ s e, child = some (s, e, false)) ∧
    (∀ s e mo, child = some (s, e, mo) →
      (mo = true → de.TagStr = "FFFEE000") ∧ (mo = false → de.VRStr = "SQ")) := by
  rcases step_elem_inv h with ⟨ha, _, s, e, hc⟩ | ⟨ha, hb, _, s, e, hc⟩ | ⟨ha, hb, hc, _⟩
  · refine ⟨fun _ => ⟨s, e, hc⟩, fun hn => absurd ha hn, ?_⟩
    intro s' e' mo hmo
    cases mo with
    | true => exact ⟨fun _ => ha, fun hh => absurd hh (by decide)⟩
    | false => rw [hc] at hmo; simp at hmo
  · refine ⟨fun hFF => absurd hFF ha, fun _ _ => ⟨s, e, hc⟩, ?_⟩
    intro s' e' mo hmo
    cases mo with
    | true => rw [hc] at hmo; simp at hmo
    | false => exact ⟨fun hh => absurd hh (by decide), fun _ => hb⟩
  · refine ⟨fun hFF => absurd hFF ha, fun _ hSQ => absurd hSQ hb, ?_⟩
    intro s' e' mo hmo
    rw [hc] at hmo
    simp at hmo

/-- C8.  For every element of a successful decode that is neither a
container (item tag `FFFEE000` or VR `SQ`) nor the pixel-data element, the
stored raw value has exactly `Len` bytes — `valueLength` equals the number
of bytes consumed as the element's value. -/
theorem C8_value_length (vrD : String → Option VRInfo) (tagD : String → Option String)
    (bytes : List Nat) (n : Nat) (explicit : Bool) (limit : Nat) (es : List DataElement)
    (de : DataElement) (h : parseDataElement vrD tagD bytes n explicit limit = some es)
    (hmem : de ∈ es) (h1 : de.TagStr ≠ "FFFEE000") (h2 : de.VRStr ≠ "SQ")
    (_h3 : de.TagStr ≠ "7FE00010") : de.Data.length = de.Len :=
  parseAux_mem_len vrD tagD bytes (bytes.length + 5) explicit limit n es h de hmem h1 h2

/-- C9 (amended).  For every element with a non-empty value, `stringData`
renders by the VR classification of the claim — fixed-size numeric of width
1/2/4 as space-separated decimal tokens of little-endian unsigned integers
stopping at the last complete group (each token followed by one space),
padded text with a single trailing null excluded, anything else verbatim —
*except* that a transfer-syntax element (tag `00020010`) whose
(null-stripped) value is a known transfer-syntax UID renders as that UID
followed by the dictionary's human name. -/
theorem C9_formatter (vrD : String → Option VRInfo) (tsD : String → Option String)
    (de : DataElement) (h : de.Data ≠ []) :
    stringData vrD tsD de = some (
      if de.TagStr = "00020010" then
        match tsD (stripPadded de.Data) with
        | some nm => stripPadded de.Data ++ " " ++ nm
        | none => renderClassified vrD de.VRStr de.Data
      else renderClassified vrD de.VRStr de.Data) := by
  obtain ⟨b, hb⟩ := getLast?_some_of_ne_nil h
  unfold stringData
  by_cases ht : de.TagStr = "00020010"
  · rw [if_pos ht, if_pos ht, hb]
    cases hts : tsD (stripPadded de.Data) with
    | some nm => rfl
    | none => exact stringDataRest_some vrD de h
  · rw [if_neg ht, if_neg ht]
    exact stringDataRest_some vrD de h

/-- C10.  For every `DataElement` with a non-empty `Data` field,
`stringData` (and the exported `StringData` that calls it) performs only
in-bounds accesses and returns a display string: non-emptiness is exactly
the precondition making the `Data[len-1]` reads of the transfer-syntax and
padded-text branches safe, so no panic (`none`) is possible. -/
theorem C10_stringData_safe (vrD : String → Option VRInfo) (tsD : String → Option String)
    (de : DataElement) (h : de.Data ≠ []) :
    (stringData vrD tsD de).isSome ∧ (StringData vrD tsD de).isSome := by
  obtain ⟨b, hb⟩ := getLast?_some_of_ne_nil h
  have hr := stringDataRest_some vrD de h
  have hmain : (stringData vrD tsD de).isSome := by
    unfold stringData
    by_cases ht : de.TagStr = "00020010"
    · rw [if_pos ht, hb]
      cases hts : tsD (stripPadded de.Data) with
      | some nm => rfl
      | none => rw [hr]; rfl
    · rw [if_neg ht, hr]; rfl
  exact ⟨hmain, hmain⟩

/-- C9 counterexample.  The transfer-syntax element (`00020010`, VR `UI`)
holding the UID `1.2.840.10008.1.2` is not rendered by VR classification
alone: the padded-text rendering the claim prescribes would be the bare
UID, but `stringData` appends the dictionary's human name. -/
theorem C9_transfer_syntax_special :
    stringData vrDictM tsDictM deTS = some "1.2.840.10008.1.2 Implicit VR Little Endian" ∧
    renderClassified vrDictM deTS.VRStr deTS.Data = "1.2.840.10008.1.2" ∧
    stringData vrDictM tsDictM deTS ≠ some (renderClassified vrDictM deTS.VRStr deTS.Data) := by
  decide

/-! ### Witnesses -/

/-- C2 witness: on `bufScan` (limit 12), the delimiter is the first match,
at offset 16; the element gets `Len = 16 - 8` and the cursor continues at
`16 + 8 = 24`. -/
theorem C2_undefined_length_witness :
    (8 ≤ 16 ∧ delimMatch bufScan "FFFEE000" 16 = true ∧
      ∀ k, 8 ≤ k → k < 16 → delimMatch bufScan "FFFEE000" k = false) ∧
    (∃ de child, step vrDictM tagDictM bufScan false 12 0 = .elem de (16 + 8) child ∧
      de.Len = 16 - 8) := by
  constructor
  · exact (C2_undefined_length vrDictM tagDictM bufScan false 12 0).1 "FFFEE000" 25 8 16
      (by decide)
  · exact (C2_undefined_length vrDictM tagDictM bufScan false 12 0).2.2 [254, 255, 0, 224]
      [] "" 8 16 (by decide) (by decide) (by decide) (by decide)

/-- C3 witness: one unfolding of the decode loop on `bufItem`, showing the
item's recursive result bound to a discarded wildcard. -/
theorem C3_recursion_discard_witness :
    parseAux vrDictM tagDictM bufItem false 16 25 0 =
      match parseAux vrDictM tagDictM bufItem true 16 24 8 with
      | none => none
      | some _ =>
        match parseAux vrDictM tagDictM bufItem false 16 24 16 with
        | none => none
        | some rest =>
          some (⟨0, [254, 255], [0, 224], "FFFEE000", "", [], "", 0, 8, [], false⟩ :: rest) := by
  exact C3_recursion_discard vrDictM tagDictM bufItem false 16 24 0
    ⟨0, [254, 255], [0, 224], "FFFEE000", "", [], "", 0, 8, [], false⟩ 16 8 16 true
    (by decide) (by decide) (by decide)

/-- Instance of the C4 supporting lemma: the pixel-data element of
`bufPixel` decodes as a leaf with its 4 value bytes stored and the cursor
advanced to 12. -/
theorem C4_pixel_data_witness :
    step vrDictM tagDictM bufPixel false 12 0 =
      .elem ⟨0, [224, 127], [16, 0], "7FE00010", "", [], "", 0, 4, [1, 2, 3, 4], false⟩
        12 none := by
  exact C4_pixel_data vrDictM tagDictM bufPixel [224, 127, 16, 0] false 12 0 [] "" 4 8
    [1, 2, 3, 4] (by decide) (by decide) (by decide) (by decide) (by decide) (by decide)

/-- C5 witness: a long-form VR (`OB`), a short-form VR (`UI`), and an
implicit element, each at their concrete offsets and lengths. -/
theorem C5_length_resolution_witness :
    readLen vrDictM [0, 0, 0, 0, 79, 66, 0, 0, 5, 0, 0, 0] true 100 0 =
      .ok [79, 66] (byteString [79, 66]) (leU32 [5, 0, 0, 0]) 12 ∧
    readLen vrDictM [0, 0, 0, 0, 85, 73, 8, 0] true 100 0 =
      .ok [85, 73] (byteString [85, 73]) (leU16 [8, 0]) 8 ∧
    readLen vrDictM [0, 0, 0, 0, 2, 0, 0, 0] false 100 0 =
      .ok [] "" (leU32 [2, 0, 0, 0]) 8 := by
  refine ⟨?_, ?_, ?_⟩
  · exact (C5_length_resolution vrDictM [0, 0, 0, 0, 79, 66, 0, 0, 5, 0, 0, 0] 100 0).1
      [79, 66] [5, 0, 0, 0] (by decide) (by decide) (by decide) (by decide)
  · exact (C5_length_resolution vrDictM [0, 0, 0, 0, 85, 73, 8, 0] 100 0).2.1
      [85, 73] [8, 0] (by decide) (by decide) (by decide) (by decide)
  · exact (C5_length_resolution vrDictM [0, 0, 0, 0, 2, 0, 0, 0] 100 0).2.2
      [2, 0, 0, 0] (by decide)

/-- C6 witness: an all-zero VR continues as the blank VR `"00"` with a
short-form length; the unknown VR code `XY` bails out of the level, which
returns the empty partial sequence rather than a panic. -/
theorem C6_unresolved_vr_witness :
    readLen vrDictM [0, 0, 0, 0, 0, 0, 3, 0] true 100 0 = .ok [0, 0] "00" (leU16 [3, 0]) 8 ∧
    (step vrDictM tagDictM [0, 0, 0, 0, 88, 89] true 6 0 = .bail ∧
      parseDataElement vrDictM tagDictM [0, 0, 0, 0, 88, 89] 0 true 6 = some []) := by
  constructor
  · exact (C6_unresolved_vr vrDictM tagDictM [0, 0, 0, 0, 0, 0, 3, 0] 100 0).1 [0, 0] [3, 0]
      (by decide) (by decide) (by decide) (by decide)
  · exact (C6_unresolved_vr vrDictM tagDictM [0, 0, 0, 0, 88, 89] 6 0).2 [88, 89]
      (by decide) (by decide) (by decide) (by decide) (by decide)

/-- C7 witness: the item of `bufItem` spawns an explicit-mode recursion
over `[8, 16)` and the `SQ` element of `bufSQ` an implicit-mode recursion
over `[12, 12)`. -/
theorem C7_container_modes_witness :
    (∃ s e, (some (8, 16, true) : Option (Nat × Nat × Bool)) = some (s, e, true)) ∧
    (∃ s e, (some (12, 12, false) : Option (Nat × Nat × Bool)) = some (s, e, false)) := by
  constructor
  · exact (C7_container_modes (show step vrDictM tagDictM bufItem false 16 0 =
      .elem ⟨0, [254, 255], [0, 224], "FFFEE000", "", [], "", 0, 8, [], false⟩ 16
        (some (8, 16, true)) by decide)).1 (by decide)
  · exact (C7_container_modes (show step vrDictM tagDictM bufSQ true 12 0 =
      .elem ⟨0, [8, 0], [64, 17], "00081140", "", [83, 81], "SQ", 0, 0, [], false⟩ 12
        (some (12, 12, false)) by decide)).2.1 (by decide) (by decide)

/-- C8 witness: the single leaf of `bufLeaf` has `Len = 2` and exactly 2
stored value bytes. -/
theorem C8_value_length_witness :
    parseDataElement vrDictM tagDictM bufLeaf 0 false 10 = some [deLeaf] ∧
    deLeaf.Data.length = deLeaf.Len := by
  refine ⟨by decide, ?_⟩
  exact C8_value_length vrDictM tagDictM bufLeaf 0 false 10 [deLeaf] deLeaf (by decide)
    (by decide) (by decide) (by decide) (by decide)

/-- C9 witness: a padded `UI` element that is not a transfer-syntax element
renders with its single trailing null stripped. -/
theorem C9_formatter_witness :
    stringData vrDictM tsDictM dePadded = some "1.2" := by
  have h := C9_formatter vrDictM tsDictM dePadded (by decide)
  rw [h]
  decide

/-- C10 witness: the transfer-syntax fixture element has non-empty data, so
both renderers return a string. -/
theorem C10_stringData_safe_witness :
    (stringData vrDictM tsDictM deTS).isSome ∧ (StringData vrDictM tsDictM deTS).isSome :=
  C10_stringData_safe vrDictM tsDictM deTS (by decide)

end DcmDump
